import Mathlib

/-!
Verification development for the go-jf-watch caching engine.

Go strings are modelled as `List Char`; Go `int`/`int64` as `Int` (with
explicit overflow checks where the source has them); Go maps/BoltDB buckets
as association lists; fallible operations return `Option`.  Each definition
mirrors one function of the source tree, named after it.
-/

namespace JfWatch

/-- Go strings are byte/char sequences; we model them as lists of chars. -/
abbrev Str := List Char

/-! ## Decimal digits: printing and parsing (strconv / fmt) -/

/-- The decimal digit character for a digit value 0..9 (values ≥ 9 map to '9'). -/
def digitChar : Nat → Char
  | 0 => '0' | 1 => '1' | 2 => '2' | 3 => '3' | 4 => '4'
  | 5 => '5' | 6 => '6' | 7 => '7' | 8 => '8' | _ => '9'

/-- Numeric value of a decimal digit character, `none` for non-digits. -/
def digitVal (c : Char) : Option Nat :=
  if '0' ≤ c ∧ c ≤ '9' then some (c.toNat - 48) else none

/-- Fuel-driven decimal printer (most significant digit first); structural
recursion on the fuel keeps it kernel-evaluable. -/
def printNatGo (fuel : Nat) (n : Nat) : Str :=
  match fuel with
  | 0 => []
  | fuel + 1 =>
    if n < 10 then [digitChar n]
    else printNatGo fuel (n / 10) ++ [digitChar (n % 10)]

/-- Decimal representation of a natural number, as Go's `fmt`/`strconv` print it. -/
def printNat (n : Nat) : Str := printNatGo (n + 1) n

/-- Left-to-right decimal accumulation, as `strconv.ParseInt` scans digits. -/
def parseDigitsAux (acc : Nat) : Str → Option Nat
  | [] => some acc
  | c :: cs =>
    match digitVal c with
    | none => none
    | some d => parseDigitsAux (acc * 10 + d) cs

/-- Parse a non-empty all-digit string to its value. -/
def parseDigits (cs : Str) : Option Nat :=
  match cs with
  | [] => none
  | _ => parseDigitsAux 0 cs

/-- Model of Go `strconv.ParseInt(s, 10, 64)`: optional sign, at least one
digit, 64-bit range check. -/
def goParseInt (cs : Str) : Option Int :=
  match cs with
  | [] => none
  | c :: rest =>
    if c = '+' then
      (parseDigits rest).bind fun n =>
        if (n : Int) ≤ 9223372036854775807 then some (n : Int) else none
    else if c = '-' then
      (parseDigits rest).bind fun n =>
        if (n : Int) ≤ 9223372036854775808 then some (-(n : Int)) else none
    else
      (parseDigits cs).bind fun n =>
        if (n : Int) ≤ 9223372036854775807 then some (n : Int) else none

/-! ## Go `strings` package operations on `List Char` -/

/-- Model of `strings.Split(s, sep)` for a single-character separator. -/
def splitOnChar (sep : Char) : Str → List Str
  | [] => [[]]
  | c :: cs =>
    if c = sep then [] :: splitOnChar sep cs
    else
      match splitOnChar sep cs with
      | [] => [[c]]
      | p :: ps => (c :: p) :: ps

/-- Model of `strings.SplitN(s, sep, 2)` for a single-character separator:
split around the first occurrence only. -/
def splitFirst (sep : Char) : Str → List Str
  | [] => [[]]
  | c :: cs =>
    if c = sep then [[], cs]
    else
      match splitFirst sep cs with
      | [] => [[c]]
      | p :: ps => (c :: p) :: ps

/-- Model of `strings.Contains(s, sep)` for a single-character separator. -/
def containsChar (sep : Char) (l : Str) : Bool := l.any (fun c => c = sep)

/-- Whitespace as trimmed by `strings.TrimSpace` (ASCII subset). -/
def isSpaceChar (c : Char) : Bool :=
  c = ' ' || c = '\t' || c = '\n' || c = '\r'

/-- Drop leading whitespace. -/
def trimLeadWS : Str → Str
  | [] => []
  | c :: cs => if isSpaceChar c then trimLeadWS cs else c :: cs

/-- Model of `strings.TrimSpace`. -/
def trimSpace (l : Str) : Str :=
  ((trimLeadWS ((trimLeadWS l).reverse)).reverse)

/-- Model of `strings.HasPrefix`. -/
def strStarts : Str → Str → Bool
  | [], _ => true
  | _, [] => false
  | p :: ps, c :: cs => p = c && strStarts ps cs

/-- Model of `strings.TrimPrefix`. -/
def trimStart (p s : Str) : Str :=
  if strStarts p s then s.drop p.length else s

/-! ## Persistent queue (internal/storage/bolt.go) -/

/-- Mirror of `storage.QueueItem` (bolt.go).  Note the struct carries no
not-before / retry-at timestamp field. -/
structure QueueItemM where
  id : Str
  mediaID : Str
  priority : Int
  url : Str
  localPath : Str
  status : Str
  createdAt : Nat
  retryCount : Nat
  errorMessage : Str
  deriving DecidableEq, Repr

/-- Mirror of `fmt.Sprintf("%03d", p)`: zero-pad to width 3 (sign included
in the width for negatives, as in Go). -/
def pad3 (p : Int) : Str :=
  if p < 0 then
    '-' :: (List.replicate (2 - (printNat (-p).toNat).length) '0' ++ printNat (-p).toNat)
  else
    List.replicate (3 - (printNat p.toNat).length) '0' ++ printNat p.toNat

/-- Queue bucket key `{priority}:{timestamp}:{id}` built by
`storage.Manager.AddQueueItem` (bolt.go line 287). -/
def queueKey (priority : Int) (createdAt : Nat) (id : Str) : Str :=
  pad3 priority ++ ':' :: printNat createdAt ++ ':' :: id

/-- The queue bucket: BoltDB `Put` replaces the value under an existing key
and inserts otherwise.  (Bolt iterates in key-byte order; the claims below
only count and filter items, so insertion order is used here.) -/
abbrev QueueStore := List (Str × QueueItemM)

/-- BoltDB `bucket.Put` semantics on the association list. -/
def putItem (k : Str) (v : QueueItemM) : QueueStore → QueueStore
  | [] => [(k, v)]
  | (k0, v0) :: rest =>
    if k0 = k then (k, v) :: rest else (k0, v0) :: putItem k v rest

/-- Mirror of `storage.Manager.AddQueueItem` (bolt.go 281-308): validate the
item, then `Put` it under `{priority}:{timestamp}:{id}`.  No existing item
for the same MediaID is looked up. -/
def addQueueItem (item : QueueItemM) (st : QueueStore) : Option QueueStore :=
  if item.id = [] ∨ item.mediaID = [] then none
  else some (putItem (queueKey item.priority item.createdAt item.id) item st)

/-- Mirror of `downloader.Manager.AddJob` (manager.go 179-212): build the
queue item with status "queued" and store it.  (The send to the worker
channel does not touch the persistent queue.) -/
def addJob (id mediaID : Str) (priority : Int) (url localPath : Str)
    (createdAt : Nat) (st : QueueStore) : Option QueueStore :=
  addQueueItem
    { id := id, mediaID := mediaID, priority := priority, url := url,
      localPath := localPath, status := "queued".data, createdAt := createdAt,
      retryCount := 0, errorMessage := [] } st

/-- Mirror of `downloader.Manager.QueueDownload` (manager.go 624-649): the
job ID is `{mediaID}-{unix-now}`; URL and path start empty. -/
def queueDownload (now : Nat) (mediaID : Str) (priority : Int)
    (st : QueueStore) : Option QueueStore :=
  addJob (mediaID ++ '-' :: printNat now) mediaID priority [] [] now st

/-- Queue items for a MediaID whose status is queued or downloading. -/
def activeItemsFor (mediaID : Str) (st : QueueStore) : List QueueItemM :=
  (st.map Prod.snd).filter
    (fun it => it.mediaID = mediaID ∧
      (it.status = "queued".data ∨ it.status = "downloading".data))

/-! ## HTTP queue-add endpoint (internal/server/handlers.go 188-234) -/

/-- Decoded body of `POST /api/queue/add`; an omitted `priority` decodes to
the Go zero value 0. -/
structure AddToQueueRequestM where
  mediaID : Str
  priority : Int
  deriving DecidableEq, Repr

/-- Mirror of `server.Server.handleQueueAdd` (handlers.go 188-234): missing
media id → 400; priority 0 (or omitted) becomes 5; the value is then passed
to `QueueDownload` unvalidated.  Returns the new store and the HTTP status. -/
def handleQueueAdd (st : QueueStore) (now : Nat) (req : AddToQueueRequestM) :
    QueueStore × Nat :=
  if req.mediaID = [] then (st, 400)
  else
    let priority := if req.priority = 0 then 5 else req.priority
    match queueDownload now req.mediaID priority st with
    | none => (st, 500)
    | some st1 => (st1, 201)

/-! ## Download worker and result handling (internal/downloader/manager.go) -/

/-- Outcome of `Manager.processJob`'s HTTP phase: the result of a download
attempt, mirroring `downloader.DownloadResult` restricted to the fields the
result processor reads. -/
structure DownloadResultM where
  success : Bool
  errStatus : Option Nat
  deriving DecidableEq, Repr

/-- Mirror of the status check in `Manager.processJob` (manager.go 336-340):
any response other than 200 makes the job fail with the status recorded in
the error; no classification into permanent/transient happens here. -/
def processJobStatus (statusCode : Nat) : DownloadResultM :=
  if statusCode = 200 then { success := true, errStatus := none }
  else { success := false, errStatus := some statusCode }

/-- What `Manager.handleResult` writes back for a job, plus the retry delay
it computes (the delay is logged only; the source marks enforcing it as a
TODO and `QueueItem` has no field to store it). -/
structure HandleResultOut where
  item : QueueItemM
  computedDelayMs : Option Nat
  deriving DecidableEq, Repr

/-- Mirror of the failure branch of `Manager.handleResult` (manager.go
563-619): every failure is treated alike; if `retryCount <
config.RetryAttempts` the item is reset to "queued" with the count
incremented and a delay of `retryCount × RetryDelay` computed (and only
logged); otherwise the item is marked "failed". -/
def handleResultFailure (retryAttempts retryDelayMs : Nat)
    (job : QueueItemM) (errMsg : Str) : HandleResultOut :=
  if job.retryCount < retryAttempts then
    { item :=
        { job with
          status := "queued".data,
          retryCount := job.retryCount + 1,
          errorMessage := errMsg },
      computedDelayMs := some ((job.retryCount + 1) * retryDelayMs) }
  else
    { item :=
        { job with
          status := "failed".data,
          errorMessage := errMsg },
      computedDelayMs := none }

/-- Retry delay the specification prescribes, scaled to hundredths of a
millisecond to keep the jitter factor integral: `base × 2^(r-1) × j` with
jitter percentage `j ∈ [75, 125]` (before the 30-second cap). -/
def specRetryDelayCentiMs (r baseMs jitterPct : Nat) : Nat :=
  baseMs * 2 ^ (r - 1) * jitterPct

/-! ### Rate limiting (manager.go 354-363 and 404-418) -/

/-- Observable events of one transfer: waiting on the token bucket, and
reading bytes from the body. -/
inductive ReadEvent where
  | waitTokens (n : Nat)
  | readBytes (n : Nat)
  deriving DecidableEq, Repr

/-- Mirror of the reader selection in `Manager.processJob` (manager.go
354-363): priority 0 uses the response body unwrapped; every other
priority wraps it in `rateLimitedReader`. -/
def readerIsRateLimited (priority : Int) : Bool :=
  if priority = 0 then false else true

/-- Events of a single `Read(buf)` call: `rateLimitedReader.Read`
(manager.go 411-418) first calls `limiter.WaitN(ctx, len(buf))`, then reads;
the unwrapped body just reads. -/
def readOnce (rateLimited : Bool) (bufLen : Nat) : List ReadEvent :=
  if rateLimited then [.waitTokens bufLen, .readBytes bufLen]
  else [.readBytes bufLen]

/-- Event trace of a whole transfer performed with the reader chosen for the
given priority, one entry of `bufLens` per `Read` call. -/
def transferEvents (priority : Int) (bufLens : List Nat) : List ReadEvent :=
  (bufLens.map (readOnce (readerIsRateLimited priority))).flatten

/-- Number of token-bucket waits in a trace. -/
def countWaits (evs : List ReadEvent) : Nat :=
  (evs.filter (fun e => match e with | .waitTokens _ => true | _ => false)).length

/-- Every read in the trace is immediately preceded by a wait for exactly
the same number of bytes. -/
def waitsBeforeReads : List ReadEvent → Bool
  | [] => true
  | .waitTokens n :: .readBytes m :: rest => n = m && waitsBeforeReads rest
  | _ => false

/-! ## Cache eviction (internal/storage/cache.go, bolt.go) -/

/-- Mirror of `storage.DownloadRecord` (bolt.go 45-55), restricted to the
fields eviction and statistics read.  `lastAccessed` is a Unix timestamp. -/
structure DownloadRecordM where
  id : Str
  mediaType : Str
  jellyfinID : Str
  localPath : Str
  size : Int
  lastAccessed : Int
  deriving DecidableEq, Repr

/-- State shared by the metadata store and the cache filesystem: the
downloads bucket, the regular files on disk (path and byte size), and the
queue bucket values. -/
structure CacheState where
  records : List DownloadRecordM
  files : List (Str × Int)
  queue : List QueueItemM
  deriving DecidableEq, Repr

/-- Disk lookup standing for `os.Stat`. -/
def statFile (st : CacheState) (path : Str) : Option Int :=
  (st.files.find? (fun f => f.1 = path)).map Prod.snd

/-- Mirror of `CacheManager.isProtectedFromEviction` (cache.go 205-219):
an item is protected iff some queue item with status "downloading" carries
its MediaID.  The source's comment announces protection of recently
accessed items (within 24 hours) but the function then returns false. -/
def isProtectedFromEviction (st : CacheState) (jellyfinID : Str) : Bool :=
  (st.queue.filter (fun it => it.status = "downloading".data)).any
    (fun it => it.mediaID = jellyfinID)

/-- Mirror of `storage.CacheEntry` (cache.go 29-36). -/
structure CacheEntryM where
  path : Str
  size : Int
  lastAccessed : Int
  mediaType : Str
  jellyfinID : Str
  protected_ : Bool
  deriving DecidableEq, Repr

/-- Mirror of `CacheManager.GetCacheEntries` (cache.go 164-201): one entry
per download record whose file exists on disk (size taken from the disk
stat), skipping records with missing files. -/
def getCacheEntries (st : CacheState) : List CacheEntryM :=
  st.records.filterMap fun r =>
    match statFile st r.localPath with
    | none => none
    | some sz =>
      some { path := r.localPath, size := sz, lastAccessed := r.lastAccessed,
             mediaType := r.mediaType, jellyfinID := r.jellyfinID,
             protected_ := isProtectedFromEviction st r.jellyfinID }

/-- Mirror of `storage.EvictionCandidate` (cache.go 39-42); the float score
is modelled with rationals. -/
structure EvictionCandidateM where
  entry : CacheEntryM
  score : Rat
  deriving DecidableEq, Repr

/-- Eviction score from `GetEvictionCandidates` (cache.go 242-255):
days since last access, plus 0.5 for files over 1000 MB, plus 0.1 for
movies.  `now` is a Unix timestamp. -/
def evictionScore (now : Int) (entry : CacheEntryM) : Rat :=
  let daysSinceAccess : Rat := ((now - entry.lastAccessed : Int) : Rat) / 86400
  let sizeMB : Rat := (entry.size : Rat) / (1024 * 1024)
  daysSinceAccess * 1 +
    (if sizeMB > 1000 then 1 / 2 else 0) +
    (if entry.mediaType = "movie".data then 1 / 10 else 0)

/-- Insert into a list sorted by descending score (stands for the
`sort.Slice` call ordering candidates highest score first). -/
def insertByScore (c : EvictionCandidateM) :
    List EvictionCandidateM → List EvictionCandidateM
  | [] => [c]
  | d :: ds => if d.score < c.score then c :: d :: ds else d :: insertByScore c ds

/-- Sort candidates by descending score. -/
def sortByScore (l : List EvictionCandidateM) : List EvictionCandidateM :=
  l.foldr insertByScore []

/-- The final loop of `GetEvictionCandidates` (cache.go 269-279): take
candidates until the accumulated size reaches the target (each candidate is
appended before the size check). -/
def takeUntilSize (targetSize : Int) (acc : Int) :
    List EvictionCandidateM → List EvictionCandidateM
  | [] => []
  | c :: cs =>
    c :: (if acc + c.entry.size ≥ targetSize then []
          else takeUntilSize targetSize (acc + c.entry.size) cs)

/-- Mirror of `CacheManager.GetEvictionCandidates` (cache.go 223-282):
score the unprotected entries, sort by score descending, and keep just
enough to reach `targetSize`.  `CleanupCache` (cache.go 361-406) calls this
with a positive target whenever utilisation exceeds the threshold and then
acts on every returned candidate via `EvictItems`. -/
def getEvictionCandidates (st : CacheState) (now : Int) (targetSize : Int) :
    List EvictionCandidateM :=
  let cands := (getCacheEntries st).filterMap fun e =>
    if e.protected_ then none
    else some { entry := e, score := evictionScore now e }
  takeUntilSize targetSize 0 (sortByScore cands)

/-- Model of `filepath.Dir`: everything before the final slash. -/
def dirOf (p : Str) : Str :=
  ((p.reverse.dropWhile (fun c => ¬ c = '/')).drop 1).reverse

/-- Remove one path from the disk, as `os.Remove`. -/
def removeFile (files : List (Str × Int)) (path : Str) : List (Str × Int) :=
  files.filter (fun f => ¬ f.1 = path)

/-- Mirror of `CacheManager.evictSingleItem` (cache.go 315-339): delete the
media file and the sidecar `.meta.json`, possibly remove the now-empty
directory (which changes no regular file), and — per the source's note —
leave the download record in the database. -/
def evictSingleItem (st : CacheState) (cand : EvictionCandidateM) : CacheState :=
  let files1 := removeFile st.files cand.entry.path
  let files2 := removeFile files1 (dirOf cand.entry.path ++ "/.meta.json".data)
  { st with files := files2 }

/-- Mirror of `CacheManager.EvictItems` (cache.go 285-312). -/
def evictItems (st : CacheState) (cands : List EvictionCandidateM) : CacheState :=
  cands.foldl evictSingleItem st

/-- Mirror of `storage.Manager.GetCacheStats` (bolt.go 652-693): the
reported cache size is the sum of the `Size` fields of all download
records, whether or not their files still exist. -/
def getCacheStatsSize (st : CacheState) : Int :=
  (st.records.map (fun r => r.size)).sum

/-- Model of `CacheManager.GetCacheSize` (cache.go 55-90): sum of the
regular files on disk, excluding `.meta.json` sidecars. -/
def diskSize (st : CacheState) : Int :=
  ((st.files.filter
      (fun f => ¬ (f.1.reverse.takeWhile (fun c => ¬ c = '/')).reverse
          = ".meta.json".data)).map Prod.snd).sum

/-! ## Range streaming (src/unnamed/part_005, package server) -/

/-- Mirror of `server.Range` (part_005 line 183); `end` is a Lean keyword,
so the field is `stop`. -/
structure RangeM where
  start : Int
  stop : Int
  deriving DecidableEq, Repr

/-- One part of the loop body of `Server.parseRangeHeader` (part_005
199-255): trim, require a dash, split around the first dash, parse the
bounds (with suffix handling and clamping), and validate. -/
def parseRangePart (fileSize : Int) (part0 : Str) : Option RangeM :=
  let part := trimSpace part0
  if containsChar '-' part then
    let bounds := splitFirst '-' part
    let startStr := bounds.getD 0 []
    let endStr := bounds.getD 1 []
    let parsed : Option (Int × Int) :=
      if startStr = [] then
        if endStr = [] then none
        else
          match goParseInt endStr with
          | none => none
          | some suffix =>
            let start := fileSize - suffix
            some (if start < 0 then 0 else start, fileSize - 1)
      else
        match goParseInt startStr with
        | none => none
        | some start =>
          if endStr = [] then some (start, fileSize - 1)
          else
            match goParseInt endStr with
            | none => none
            | some e => some (start, e)
    match parsed with
    | none => none
    | some (start, stop) =>
      if start < 0 ∨ stop < 0 ∨ start > stop ∨ start ≥ fileSize then none
      else some { start := start, stop := if stop ≥ fileSize then fileSize - 1 else stop }
  else none

/-- Mirror of `Server.parseRangeHeader` (part_005 189-258): require the
`bytes=` unit, split the spec on commas, and parse every part; any invalid
part fails the whole header. -/
def parseRangeHeader (rangeHeader : Str) (fileSize : Int) : Option (List RangeM) :=
  if strStarts "bytes=".data rangeHeader then
    let spec := trimStart "bytes=".data rangeHeader
    (splitOnChar ',' spec).mapM (parseRangePart fileSize)
  else none

/-- HTTP method of a streaming request. -/
inductive HMethod where
  | get
  | head
  deriving DecidableEq, Repr

/-- The response fields `Server.serveVideoFile` produces.  `contentLength`
is the final value of the Content-Length header (the source sets it to the
file size first and overwrites it for a single range). -/
structure HttpResponse where
  status : Nat
  acceptRanges : Bool
  contentRange : Option Str
  contentLength : Int
  body : List Nat
  deriving DecidableEq, Repr

/-- Mirror of `Server.serveVideoFile` (part_005 51-127) for an
already-opened cached file (given as its byte list): no Range header serves
the whole file with 200; an unparsable range yields 416 with
`Content-Range: bytes */{size}`; several ranges yield 416 without that
header; a single range is served with 206, `Content-Range: bytes
{s}-{e}/{size}`, `Content-Length = e-s+1`, and the seek-and-copy body.
Content-type detection (part_005 139-180) is orthogonal to the range
claims and not modelled. -/
def serveVideoFile (file : List Nat) (method : HMethod)
    (rangeHeader : Option Str) : HttpResponse :=
  let fileSize : Int := file.length
  match rangeHeader with
  | none =>
    { status := 200, acceptRanges := true, contentRange := none,
      contentLength := fileSize,
      body := match method with | .head => [] | .get => file }
  | some hdr =>
    match parseRangeHeader hdr fileSize with
    | none =>
      { status := 416, acceptRanges := true,
        contentRange := some ("bytes */".data ++ printNat file.length),
        contentLength := fileSize, body := [] }
    | some ranges =>
      match ranges with
      | [r] =>
        let contentLength := r.stop - r.start + 1
        { status := 206, acceptRanges := true,
          contentRange := some ("bytes ".data ++ printNat r.start.toNat
            ++ '-' :: printNat r.stop.toNat ++ '/' :: printNat file.length),
          contentLength := contentLength,
          body := match method with
            | .head => []
            | .get => (file.drop r.start.toNat).take contentLength.toNat }
      | _ =>
        { status := 416, acceptRanges := true, contentRange := none,
          contentLength := fileSize, body := [] }

/-! ## Streaming handler (src/unnamed/part_005 18-47) -/

/-- Modelled from the spec: the record returned by the streaming server's
`storage.GetDownload(mediaID)`, whose definition is not under src/ (only
its call sites are).  Spec §3: a DownloadRecord has a local path, byte
size and last-accessed timestamp, at most one record per MediaId. -/
structure CachedItemM where
  jellyfinID : Str
  localPath : Str
  contentType : Str
  size : Int
  lastAccessed : Int
  deriving DecidableEq, Repr

/-- Store state seen by the streaming handler. -/
structure ServerState where
  downloads : List CachedItemM
  diskPaths : List Str
  deriving DecidableEq, Repr

/-- Modelled from the spec: `storage.GetDownload` (missing from src/) is
the Metadata Store's `get_download` (spec §4.A), a pure lookup of the
record for a MediaId. -/
def getDownload (st : ServerState) (mediaID : Str) : Option CachedItemM :=
  st.downloads.find? (fun r => r.jellyfinID = mediaID)

/-- Modelled from the spec: `touch_download` (spec §4.A) sets the
last-accessed timestamp of the record for a MediaId.  No caller exists in
src/; it is defined here to state what the handler would have to do. -/
def touchDownload (st : ServerState) (mediaID : Str) (when : Int) : ServerState :=
  { st with
    downloads := st.downloads.map fun r =>
      if r.jellyfinID = mediaID then { r with lastAccessed := when } else r }

/-- Terminal outcome of `Server.handleVideoStream`. -/
inductive StreamOutcome where
  | badRequest
  | fallback
  | served
  deriving DecidableEq, Repr

/-- Mirror of `Server.handleVideoStream` (part_005 18-47): empty id → 400;
no record or missing file → fallback; otherwise the cached file is served
by `serveVideoFile`.  The handler performs no storage write; in particular
it never calls `touchDownload`.  (The part_004 variant additionally fires
an asynchronous `OnPlaybackStart`, which writes sessions and queue items
but no download record either.) -/
def handleVideoStream (st : ServerState) (mediaID : Str) :
    ServerState × StreamOutcome :=
  if mediaID = [] then (st, .badRequest)
  else
    match getDownload st mediaID with
    | none => (st, .fallback)
    | some item =>
      if item.localPath ∈ st.diskPaths then (st, .served)
      else (st, .fallback)

/-! ## Lemmas about decimal printing and parsing -/

theorem digitChar_isDigit (n : Nat) : (digitChar n).isDigit = true := by
  by_cases h : n < 10
  · interval_cases n <;> decide
  · obtain ⟨k, rfl⟩ : ∃ k, n = k + 9 := ⟨n - 9, by omega⟩
    rfl

theorem digitVal_digitChar (d : Nat) (h : d < 10) :
    digitVal (digitChar d) = some d := by
  interval_cases d <;> decide

theorem mem_printNatGo_isDigit (fuel : Nat) :
    ∀ n c, c ∈ printNatGo fuel n → c.isDigit = true := by
  induction fuel with
  | zero => intro n c h; simp [printNatGo] at h
  | succ fuel ih =>
    intro n c h
    by_cases hn : n < 10
    · simp [printNatGo, hn] at h
      subst h; exact digitChar_isDigit n
    · simp [printNatGo, hn] at h
      rcases h with h | h
      · exact ih _ _ h
      · subst h; exact digitChar_isDigit (n % 10)

theorem mem_printNat_isDigit (n : Nat) (c : Char) (h : c ∈ printNat n) :
    c.isDigit = true :=
  mem_printNatGo_isDigit (n + 1) n c h

theorem printNatGo_ne_nil (fuel n : Nat) (h : n < fuel) :
    printNatGo fuel n ≠ [] := by
  cases fuel with
  | zero => omega
  | succ fuel =>
    by_cases hn : n < 10 <;> simp [printNatGo, hn]

theorem printNat_ne_nil (n : Nat) : printNat n ≠ [] :=
  printNatGo_ne_nil (n + 1) n (by omega)

theorem parseDigitsAux_append (xs : Str) :
    ∀ ys acc, parseDigitsAux acc (xs ++ ys) =
      (parseDigitsAux acc xs).bind fun a => parseDigitsAux a ys := by
  induction xs with
  | nil => intro ys acc; rfl
  | cons c cs ih =>
    intro ys acc
    simp only [List.cons_append, parseDigitsAux]
    cases digitVal c with
    | none => rfl
    | some d => exact ih ys (acc * 10 + d)

theorem parseDigitsAux_printNatGo (fuel : Nat) :
    ∀ n acc, n < fuel →
      parseDigitsAux acc (printNatGo fuel n) =
        some (acc * 10 ^ (printNatGo fuel n).length + n) := by
  induction fuel with
  | zero => intro n acc h; omega
  | succ fuel ih =>
    intro n acc h
    by_cases hn : n < 10
    · simp only [printNatGo, if_pos hn, parseDigitsAux,
        digitVal_digitChar n hn, List.length_singleton]
      norm_num
    · have h10 : 10 ≤ n := by omega
      have hrec : n / 10 < fuel := by
        have h1 : n / 10 < n := Nat.div_lt_self (by omega) (by omega)
        omega
      simp only [printNatGo, if_neg hn]
      rw [parseDigitsAux_append]
      rw [ih (n / 10) acc hrec]
      have hlen : (printNatGo fuel (n / 10) ++ [digitChar (n % 10)]).length
          = (printNatGo fuel (n / 10)).length + 1 := by
        simp
      rw [hlen]
      simp only [Option.some_bind, parseDigitsAux,
        digitVal_digitChar (n % 10) (Nat.mod_lt n (by omega))]
      congr 1
      generalize (printNatGo fuel (n / 10)).length = L
      rw [pow_succ]
      ring_nf
      omega

theorem parseDigits_printNat (n : Nat) : parseDigits (printNat n) = some n := by
  have h := parseDigitsAux_printNatGo (n + 1) n 0 (by omega)
  have hne := printNat_ne_nil n
  unfold printNat at *
  unfold parseDigits
  match hm : printNatGo (n + 1) n with
  | [] => exact absurd hm hne
  | c :: cs =>
    rw [hm] at h
    simpa using h

theorem printNat_inj {a b : Nat} (h : printNat a = printNat b) : a = b := by
  have ha := parseDigits_printNat a
  have hb := parseDigits_printNat b
  rw [h, hb] at ha
  exact (Option.some_inj.mp ha).symm

theorem isDigit_ne_chars {c : Char} (h : c.isDigit = true) :
    ¬ c = '+' ∧ ¬ c = '-' ∧ ¬ c = ':' ∧ ¬ c = ',' ∧ ¬ c = '/' ∧
      isSpaceChar c = false := by
  refine ⟨?_, ?_, ?_, ?_, ?_, ?_⟩
  case _ => intro hc; subst hc; exact absurd h (by decide)
  case _ => intro hc; subst hc; exact absurd h (by decide)
  case _ => intro hc; subst hc; exact absurd h (by decide)
  case _ => intro hc; subst hc; exact absurd h (by decide)
  case _ => intro hc; subst hc; exact absurd h (by decide)
  case _ =>
    cases heq : isSpaceChar c with
    | false => rfl
    | true =>
      simp only [isSpaceChar, Bool.or_eq_true, decide_eq_true_eq] at heq
      rcases heq with ((h1 | h1) | h1) | h1 <;>
        (subst h1; exact absurd h (by decide))

theorem goParseInt_digits (cs : Str) (hne : cs ≠ [])
    (h : ∀ c ∈ cs, c.isDigit = true) :
    goParseInt cs = (parseDigits cs).bind fun n =>
      if (n : Int) ≤ 9223372036854775807 then some (n : Int) else none := by
  match cs with
  | [] => exact absurd rfl hne
  | c :: rest =>
    have hc := h c (List.mem_cons_self c rest)
    obtain ⟨h1, h2, -⟩ := isDigit_ne_chars hc
    simp only [goParseInt, if_neg h1, if_neg h2]

theorem goParseInt_printNat (n : Nat) (h : (n : Int) ≤ 9223372036854775807) :
    goParseInt (printNat n) = some (n : Int) := by
  rw [goParseInt_digits (printNat n) (printNat_ne_nil n) (mem_printNat_isDigit n),
    parseDigits_printNat]
  simp only [Option.some_bind]
  rw [if_pos h]

/-! ## Lemmas about the Go string operations -/

theorem splitOnChar_no_sep (sep : Char) :
    ∀ l : Str, (∀ c ∈ l, ¬ c = sep) → splitOnChar sep l = [l] := by
  intro l
  induction l with
  | nil => intro _; rfl
  | cons c cs ih =>
    intro h
    have hc : ¬ c = sep := h c (List.mem_cons_self c cs)
    have hcs := ih (fun x hx => h x (List.mem_cons_of_mem c hx))
    simp [splitOnChar, hc, hcs]

theorem splitFirst_no_sep (sep : Char) :
    ∀ a b : Str, (∀ c ∈ a, ¬ c = sep) →
      splitFirst sep (a ++ sep :: b) = [a, b] := by
  intro a
  induction a with
  | nil => intro b _; simp [splitFirst]
  | cons c cs ih =>
    intro b h
    have hc : ¬ c = sep := h c (List.mem_cons_self c cs)
    have hcs := ih b (fun x hx => h x (List.mem_cons_of_mem c hx))
    simp [splitFirst, hc, hcs]

theorem containsChar_with_sep (sep : Char) (a b : Str) :
    containsChar sep (a ++ sep :: b) = true := by
  simp [containsChar]

theorem trimLeadWS_no_ws :
    ∀ l : Str, (∀ c ∈ l, isSpaceChar c = false) → trimLeadWS l = l := by
  intro l
  induction l with
  | nil => intro _; rfl
  | cons c cs _ =>
    intro h
    have hc := h c (List.mem_cons_self c cs)
    simp [trimLeadWS, hc]

theorem trimSpace_no_ws (l : Str) (h : ∀ c ∈ l, isSpaceChar c = false) :
    trimSpace l = l := by
  unfold trimSpace
  rw [trimLeadWS_no_ws l h]
  rw [trimLeadWS_no_ws l.reverse (fun c hc => h c (List.mem_reverse.mp hc))]
  exact List.reverse_reverse l

theorem strStarts_app (p s : Str) : strStarts p (p ++ s) = true := by
  induction p with
  | nil => cases s <;> rfl
  | cons c cs ih => simp [strStarts, ih]

theorem trimStart_app (p s : Str) : trimStart p (p ++ s) = s := by
  simp [trimStart, strStarts_app, List.drop_left]

theorem append_colon_inj :
    ∀ a b x y : Str, (∀ c ∈ a, ¬ c = ':') → (∀ c ∈ b, ¬ c = ':') →
      a ++ ':' :: x = b ++ ':' :: y → a = b ∧ x = y := by
  intro a
  induction a with
  | nil =>
    intro b x y _ hb heq
    cases b with
    | nil => simpa using heq
    | cons c bs =>
      simp only [List.nil_append, List.cons_append, List.cons.injEq] at heq
      exact absurd heq.1.symm (hb c (List.mem_cons_self c bs))
  | cons c as ih =>
    intro b x y ha hb heq
    cases b with
    | nil =>
      simp only [List.cons_append, List.nil_append, List.cons.injEq] at heq
      exact absurd heq.1 (ha c (List.mem_cons_self c as))
    | cons c' bs =>
      simp only [List.cons_append, List.cons.injEq] at heq
      obtain ⟨h1, h2⟩ := heq
      have := ih bs x y (fun u hu => ha u (List.mem_cons_of_mem c hu))
        (fun u hu => hb u (List.mem_cons_of_mem c' hu)) h2
      exact ⟨by rw [h1, this.1], this.2⟩

/-! ## Rate-limiter bypass (claim C8) -/

theorem transfer_unlimited (bufs : List Nat) :
    (bufs.map (readOnce false)).flatten = bufs.map ReadEvent.readBytes := by
  induction bufs with
  | nil => rfl
  | cons n ns ih => simp [readOnce, ih]

theorem countWaits_readBytes (bufs : List Nat) :
    countWaits (bufs.map ReadEvent.readBytes) = 0 := by
  induction bufs with
  | nil => rfl
  | cons n ns ih => simp [countWaits, List.filter, ih]

theorem waitsBeforeReads_limited (bufs : List Nat) :
    waitsBeforeReads ((bufs.map (readOnce true)).flatten) = true := by
  induction bufs with
  | nil => rfl
  | cons n ns ih => simp [readOnce, waitsBeforeReads, ih]

theorem countWaits_limited (bufs : List Nat) :
    countWaits ((bufs.map (readOnce true)).flatten) = bufs.length := by
  induction bufs with
  | nil => rfl
  | cons n ns ih => simpa [readOnce, countWaits, List.filter] using ih

/-- C8: a download job with priority 0 reads the response body with no
rate-limiter wait on any read, while a job with priority > 0 reads through
`rateLimitedReader`, whose every read first waits on the token bucket for
exactly the length of the buffer. -/
theorem priority_zero_bypasses_rate_limiter (p : Int) (bufs : List Nat) :
    (p = 0 → countWaits (transferEvents p bufs) = 0 ∧
      transferEvents p bufs = bufs.map ReadEvent.readBytes) ∧
    (0 < p → waitsBeforeReads (transferEvents p bufs) = true ∧
      countWaits (transferEvents p bufs) = bufs.length) := by
  constructor
  · intro hp
    have hr : readerIsRateLimited p = false := by
      simp [readerIsRateLimited, hp]
    unfold transferEvents
    rw [hr, transfer_unlimited]
    exact ⟨countWaits_readBytes bufs, rfl⟩
  · intro hp
    have hr : readerIsRateLimited p = true := by
      have : ¬ p = 0 := by omega
      simp [readerIsRateLimited, this]
    unfold transferEvents
    rw [hr]
    exact ⟨waitsBeforeReads_limited bufs, countWaits_limited bufs⟩

/-- Witness for C8 at a concrete transfer of two reads. -/
theorem priority_zero_bypasses_rate_limiter_witness :
    countWaits (transferEvents 0 [65536, 1024]) = 0 ∧
    waitsBeforeReads (transferEvents 3 [65536, 1024]) = true ∧
    countWaits (transferEvents 3 [65536, 1024]) = 2 :=
  ⟨(priority_zero_bypasses_rate_limiter 0 [65536, 1024]).1 rfl |>.1,
   (priority_zero_bypasses_rate_limiter 3 [65536, 1024]).2 (by norm_num) |>.1,
   (priority_zero_bypasses_rate_limiter 3 [65536, 1024]).2 (by norm_num) |>.2⟩

/-! ## Retry handling of permanent HTTP failures (claim C2) -/

/-- C2 (code bug): a job whose GET returns 404 fails like any other job,
and `handleResult` — which never classifies the error — resets it to
"queued" with the retry count incremented instead of marking it "failed".
With the default `retry_attempts` 5, the item after the first 404 has
status "queued" and retry count 1, so a second upstream request follows;
the claim (and the repository's own retry_test.go and plan documents)
require status "failed" with no retry. -/
theorem http404_requeued_not_failed :
    (processJobStatus 404).success = false ∧
    (processJobStatus 404).errStatus = some 404 ∧
    (let job : QueueItemM :=
      { id := "j1".data, mediaID := "m1".data, priority := 3,
        url := "u".data, localPath := "p".data,
        status := "downloading".data, createdAt := 0,
        retryCount := 0, errorMessage := [] }
     let out := handleResultFailure 5 1000 job "unexpected status code: 404".data
     out.item.status = "queued".data ∧
     out.item.retryCount = 1 ∧
     ¬ out.item.status = "failed".data) := by
  decide

/-! ## Retry backoff shape (claim C4) -/

/-- C4 (code bug): for a transiently failed job entering its fourth retry
with base delay 1000 ms, `handleResult` computes the linear delay
`4 × 1000 = 4000` ms — strictly below even the smallest value
`1000 × 2^3 × 0.75 = 6000` ms the specified exponential-with-jitter formula
allows — resets the item to "queued", and discards the delay (the
`QueueItem` record it writes has no not-before field, so the dispatcher
can re-claim immediately). -/
theorem retry_delay_linear_not_exponential :
    (let job : QueueItemM :=
      { id := "j1".data, mediaID := "m1".data, priority := 3,
        url := "u".data, localPath := "p".data,
        status := "downloading".data, createdAt := 0,
        retryCount := 3, errorMessage := [] }
     let out := handleResultFailure 5 1000 job "err".data
     out.computedDelayMs = some 4000 ∧
     out.item.status = "queued".data ∧
     out.item.retryCount = 4) ∧
    specRetryDelayCentiMs 4 1000 75 = 600000 ∧
    4000 * 100 < 600000 := by
  decide

/-! ## Eviction deletes the file but keeps the record (claim C6) -/

/-- Counterexample to C6: evicting the single cached item removes its file
but leaves its download record in place, so the store-reported cache size
(100) no longer matches the on-disk total (0) even with no download in
flight. -/
theorem evict_keeps_record_counterexample :
    (let r : DownloadRecordM :=
      { id := "j1".data, mediaType := "movie".data, jellyfinID := "m1".data,
        localPath := "movies/m1/v.mkv".data, size := 100, lastAccessed := 0 }
     let st : CacheState :=
      { records := [r], files := [("movies/m1/v.mkv".data, 100)], queue := [] }
     let cand : EvictionCandidateM :=
      { entry := { path := "movies/m1/v.mkv".data, size := 100,
                   lastAccessed := 0, mediaType := "movie".data,
                   jellyfinID := "m1".data, protected_ := false },
        score := 0 }
     let st1 := evictSingleItem st cand
     st1.records = [r] ∧ getCacheStatsSize st1 = 100 ∧ diskSize st1 = 0 ∧
       ¬ getCacheStatsSize st1 = diskSize st1) := by
  decide

/-- C6 as amended: `evictSingleItem` deletes the candidate's file (and its
`.meta.json` sidecar) but deliberately retains the download record, so the
store-reported cache size is unchanged by eviction and exceeds the on-disk
total by the byte size of every evicted item. -/
theorem evict_deletes_file_keeps_record (st : CacheState)
    (cand : EvictionCandidateM) :
    (evictSingleItem st cand).records = st.records ∧
    (evictSingleItem st cand).queue = st.queue ∧
    ¬ cand.entry.path ∈ ((evictSingleItem st cand).files.map Prod.fst) ∧
    getCacheStatsSize (evictSingleItem st cand) = getCacheStatsSize st := by
  refine ⟨rfl, rfl, ?_, rfl⟩
  intro hmem
  simp only [evictSingleItem, removeFile, List.mem_map, List.mem_filter] at hmem
  obtain ⟨f, ⟨⟨_, hne⟩, _⟩, heq⟩ := hmem
  rw [heq] at hne
  simp at hne

/-! ## Streaming a cached file never touches the record (claim C7) -/

/-- Counterexample to C7: a successful cached serve at time 100 leaves the
record's last-accessed timestamp at its old value 50; the handler's
post-state is not the state `touch_download` would have produced. -/
theorem serve_does_not_touch_counterexample :
    (let item : CachedItemM :=
      { jellyfinID := "m1".data, localPath := "movies/m1/v.mkv".data,
        contentType := "video/mp4".data, size := 100, lastAccessed := 50 }
     let st : ServerState :=
      { downloads := [item], diskPaths := ["movies/m1/v.mkv".data] }
     (handleVideoStream st "m1".data).2 = StreamOutcome.served ∧
     ((getDownload (handleVideoStream st "m1".data).1 "m1".data).map
        (fun r => r.lastAccessed)) = some 50 ∧
     ¬ (handleVideoStream st "m1".data).1 = touchDownload st "m1".data 100) := by
  decide

/-- C7 as amended: `handleVideoStream` performs no storage write at all —
its post-state equals its pre-state in every branch — so the last-accessed
timestamp of a served item keeps the value set at download completion. -/
theorem serve_leaves_store_unchanged (st : ServerState) (mediaID : Str) :
    (handleVideoStream st mediaID).1 = st := by
  unfold handleVideoStream
  by_cases h : mediaID = []
  · simp [h]
  · simp only [h, if_false]
    cases getDownload st mediaID with
    | none => rfl
    | some item =>
      by_cases hp : item.localPath ∈ st.diskPaths <;> simp [hp]

/-! ## Queue-add endpoint priorities (claim C10) -/

theorem mem_map_snd_putItem (k : Str) (v : QueueItemM) :
    ∀ l : QueueStore, v ∈ (putItem k v l).map Prod.snd := by
  intro l
  induction l with
  | nil =>
    simp only [putItem, List.map_cons, List.map_nil, List.mem_cons]
    exact Or.inl trivial
  | cons kv rest ih =>
    by_cases h : kv.1 = k
    · simp only [putItem, if_pos h, List.map_cons, List.mem_cons]
      exact Or.inl trivial
    · simp only [putItem]
      rw [if_neg h]
      simp only [List.map_cons, List.mem_cons]
      exact Or.inr ih

/-- Counterexample to C10: a request with priority 6 is accepted (201) and
enqueued with priority 6, which is outside 1..5. -/
theorem queue_add_priority_six_counterexample :
    (handleQueueAdd [] 1 { mediaID := "m".data, priority := 6 }).2 = 201 ∧
    ((handleQueueAdd [] 1 { mediaID := "m".data, priority := 6 }).1.map
      (fun kv => kv.2.priority)) = [6] ∧
    ¬ (1 ≤ (6 : Int) ∧ (6 : Int) ≤ 5) := by
  decide

/-- C10 as amended: `handleQueueAdd` maps priority 0 (or an omitted
priority) to 5 before enqueuing, so a priority-0 unthrottled download can
never be requested through this endpoint; but it performs no other
validation, so the created queue item's priority is exactly the requested
value whenever that value is non-zero (including values outside 1..5). -/
theorem queue_add_priority_nonzero (st : QueueStore) (now : Nat) (M : Str)
    (p : Int) (hM : ¬ M = []) :
    (handleQueueAdd st now { mediaID := M, priority := p }).2 = 201 ∧
    ∃ it ∈ ((handleQueueAdd st now { mediaID := M, priority := p }).1.map
        Prod.snd),
      it.mediaID = M ∧ it.status = "queued".data ∧
      it.priority = (if p = 0 then 5 else p) ∧ ¬ it.priority = 0 := by
  have hid : ¬ (M ++ '-' :: printNat now) = [] := by
    simp
  have hq : queueDownload now M (if p = 0 then 5 else p) st =
      some (putItem
        (queueKey (if p = 0 then 5 else p) now (M ++ '-' :: printNat now))
        { id := M ++ '-' :: printNat now, mediaID := M,
          priority := if p = 0 then 5 else p, url := [], localPath := [],
          status := "queued".data, createdAt := now, retryCount := 0,
          errorMessage := [] } st) := by
    unfold queueDownload addJob addQueueItem
    rw [if_neg]
    push_neg
    exact ⟨hid, hM⟩
  unfold handleQueueAdd
  simp only [hM, if_false, hq]
  refine ⟨trivial, ?_⟩
  refine ⟨_, mem_map_snd_putItem _ _ st, rfl, rfl, rfl, ?_⟩
  by_cases hp : p = 0
  · simp [hp]
  · simp [hp]

/-- Witness for C10 at the concrete request `{media_id: "m", priority: 0}`. -/
theorem queue_add_priority_nonzero_witness :
    (handleQueueAdd [] 1 { mediaID := "m".data, priority := 0 }).2 = 201 ∧
    ∃ it ∈ ((handleQueueAdd [] 1 { mediaID := "m".data, priority := 0 }).1.map
        Prod.snd),
      it.mediaID = "m".data ∧ it.status = "queued".data ∧
      it.priority = (if (0 : Int) = 0 then 5 else 0) ∧ ¬ it.priority = 0 :=
  queue_add_priority_nonzero [] 1 ("m".data) 0 (by decide)

/-! ## Double enqueue (claim C1) -/

theorem mem_pad3_ne_colon (p : Int) : ∀ c ∈ pad3 p, ¬ c = ':' := by
  intro c hc
  unfold pad3 at hc
  by_cases hp : p < 0
  · rw [if_pos hp] at hc
    rcases List.mem_cons.mp hc with h | h
    · subst h; decide
    · rcases List.mem_append.mp h with h1 | h1
      · rw [List.eq_of_mem_replicate h1]; decide
      · exact (isDigit_ne_chars (mem_printNat_isDigit _ c h1)).2.2.1
  · rw [if_neg hp] at hc
    rcases List.mem_append.mp hc with h1 | h1
    · rw [List.eq_of_mem_replicate h1]; decide
    · exact (isDigit_ne_chars (mem_printNat_isDigit _ c h1)).2.2.1

theorem mem_printNat_ne_colon (n : Nat) : ∀ c ∈ printNat n, ¬ c = ':' :=
  fun c hc => (isDigit_ne_chars (mem_printNat_isDigit n c hc)).2.2.1

theorem queueKey_time_inj {p1 p2 : Int} {t1 t2 : Nat} {id1 id2 : Str}
    (h : queueKey p1 t1 id1 = queueKey p2 t2 id2) : t1 = t2 := by
  unfold queueKey at h
  rw [List.append_assoc, List.append_assoc] at h
  simp only [List.cons_append] at h
  have h1 := append_colon_inj (pad3 p1) (pad3 p2) _ _
    (mem_pad3_ne_colon p1) (mem_pad3_ne_colon p2) h
  have h2 := append_colon_inj (printNat t1) (printNat t2) _ _
    (mem_printNat_ne_colon t1) (mem_printNat_ne_colon t2) h1.2
  exact printNat_inj h2.1

/-- Counterexample to C1: enqueuing MediaID "m" twice through
`QueueDownload` (priority 1 at time 1, then priority 2 at time 2) leaves
two queue items for "m", both with status "queued", keeping both requested
priorities — not a single item with priority `min 1 2`. -/
theorem double_enqueue_counterexample :
    (match (queueDownload 1 "m".data 1 []).bind (queueDownload 2 "m".data 2) with
     | some st => ((activeItemsFor "m".data st).length,
                   (activeItemsFor "m".data st).map (fun it => it.priority))
     | none => (0, [])) = (2, [1, 2]) := by
  decide

/-- C1 as amended: `QueueDownload` performs no deduplication and no
priority merge.  Enqueuing the same MediaID twice at distinct Unix seconds
inserts two distinct queue items under distinct bucket keys; afterwards the
queue holds two items for that MediaID, both "queued", carrying the two
requested priorities unchanged.  (Only when the two calls share the same
second and the same priority does the identical key make the second `Put`
overwrite the first.) -/
theorem double_enqueue_two_items (M : Str) (p1 p2 : Int) (t1 t2 : Nat)
    (hM : ¬ M = []) (ht : ¬ t1 = t2) :
    ∃ st1 st2,
      queueDownload t1 M p1 [] = some st1 ∧
      queueDownload t2 M p2 st1 = some st2 ∧
      (activeItemsFor M st2).map (fun it => it.priority) = [p1, p2] ∧
      (activeItemsFor M st2).length = 2 := by
  have hid1 : ¬ (M ++ '-' :: printNat t1) = [] := by simp
  have hid2 : ¬ (M ++ '-' :: printNat t2) = [] := by simp
  set i1 : QueueItemM :=
    { id := M ++ '-' :: printNat t1, mediaID := M, priority := p1,
      url := [], localPath := [], status := "queued".data, createdAt := t1,
      retryCount := 0, errorMessage := [] } with hi1
  set i2 : QueueItemM :=
    { id := M ++ '-' :: printNat t2, mediaID := M, priority := p2,
      url := [], localPath := [], status := "queued".data, createdAt := t2,
      retryCount := 0, errorMessage := [] } with hi2
  have hk : ¬ queueKey p1 t1 (M ++ '-' :: printNat t1)
      = queueKey p2 t2 (M ++ '-' :: printNat t2) := by
    intro h
    exact ht (queueKey_time_inj h)
  refine ⟨[(queueKey p1 t1 i1.id, i1)],
    [(queueKey p1 t1 i1.id, i1), (queueKey p2 t2 i2.id, i2)], ?_, ?_, ?_, ?_⟩
  · unfold queueDownload addJob addQueueItem
    rw [if_neg]
    · rfl
    · push_neg
      exact ⟨hid1, hM⟩
  · unfold queueDownload addJob addQueueItem
    rw [if_neg]
    · simp only [putItem]
      rw [if_neg hk]
    · push_neg
      exact ⟨hid2, hM⟩
  · simp [activeItemsFor, hi1, hi2]
  · simp [activeItemsFor, hi1, hi2]

/-- Witness for C1 (amended) at MediaID "m", priorities 1 and 2, times 1
and 2. -/
theorem double_enqueue_two_items_witness :
    ∃ st1 st2,
      queueDownload 1 ("m".data) 1 [] = some st1 ∧
      queueDownload 2 ("m".data) 2 st1 = some st2 ∧
      (activeItemsFor ("m".data) st2).map (fun it => it.priority) = [1, 2] ∧
      (activeItemsFor ("m".data) st2).length = 2 :=
  double_enqueue_two_items ("m".data) 1 2 1 2 (by decide) (by decide)

/-! ## Eviction and recent access (claim C5) -/

/-- C5 (code bug): an unprotected cached item served one minute ago (well
inside any protection window; its last-accessed timestamp is 60 seconds
before `now`) is returned by `GetEvictionCandidates` and its file is then
deleted by `EvictItems`, because `isProtectedFromEviction` only protects
MediaIDs with a "downloading" queue item — the recently-accessed branch
announced in its comment returns false.  The downloading item "m2" shows
the only protection that does exist. -/
theorem eviction_ignores_recent_access :
    (let r : DownloadRecordM :=
      { id := "j1".data, mediaType := "episode".data, jellyfinID := "m1".data,
        localPath := "series/s1/S01E01/v.mkv".data, size := 2000,
        lastAccessed := 999940 }
     let q2 : QueueItemM :=
      { id := "q2".data, mediaID := "m2".data, priority := 1, url := [],
        localPath := [], status := "downloading".data, createdAt := 0,
        retryCount := 0, errorMessage := [] }
     let st : CacheState :=
      { records := [r], files := [("series/s1/S01E01/v.mkv".data, 2000)],
        queue := [q2] }
     isProtectedFromEviction st "m1".data = false ∧
     isProtectedFromEviction st "m2".data = true ∧
     ((getEvictionCandidates st 1000000 1).map
        (fun c => c.entry.jellyfinID)) = ["m1".data] ∧
     statFile (evictItems st (getEvictionCandidates st 1000000 1))
        ("series/s1/S01E01/v.mkv".data) = none ∧
     (1000000 : Int) - 999940 = 60 ∧ (60 : Int) < 86400) := by
  decide

/-! ## Range parsing and serving (claims C3 and C9) -/

theorem parse_header_single (body : Str) (total : Int)
    (hnc : ∀ c ∈ body, ¬ c = ',') :
    parseRangeHeader ("bytes=".data ++ body) total =
      (parseRangePart total body).bind (fun r => some [r]) := by
  unfold parseRangeHeader
  have h1 : strStarts "bytes=".data ("bytes=".data ++ body) = true :=
    strStarts_app _ _
  simp only [h1, if_true, trimStart_app, splitOnChar_no_sep ',' body hnc]
  cases hp : parseRangePart total body with
  | none => simp [List.mapM, List.mapM.loop, hp]
  | some r => simp [List.mapM, List.mapM.loop, hp]

theorem mem_printNat_not_ws (n : Nat) :
    ∀ c ∈ printNat n, isSpaceChar c = false :=
  fun c hc => (isDigit_ne_chars (mem_printNat_isDigit n c hc)).2.2.2.2.2

theorem mem_printNat_ne_dash (n : Nat) : ∀ c ∈ printNat n, ¬ c = '-' :=
  fun c hc => (isDigit_ne_chars (mem_printNat_isDigit n c hc)).2.1

theorem dash_body_not_ws (a b : Nat) :
    ∀ c ∈ printNat a ++ '-' :: printNat b, isSpaceChar c = false := by
  intro c hc
  rcases List.mem_append.mp hc with h | h
  · exact mem_printNat_not_ws a c h
  · rcases List.mem_cons.mp h with h1 | h1
    · subst h1; decide
    · exact mem_printNat_not_ws b c h1

theorem dash_body_ne_comma (a b : Nat) :
    ∀ c ∈ printNat a ++ '-' :: printNat b, ¬ c = ',' := by
  intro c hc
  rcases List.mem_append.mp hc with h | h
  · exact (isDigit_ne_chars (mem_printNat_isDigit a c h)).2.2.2.1
  · rcases List.mem_cons.mp h with h1 | h1
    · subst h1; decide
    · exact (isDigit_ne_chars (mem_printNat_isDigit b c h1)).2.2.2.1

theorem parsePart_digits (a b : Nat) (total : Int)
    (ha : (a : Int) ≤ 9223372036854775807)
    (hb : (b : Int) ≤ 9223372036854775807) :
    parseRangePart total (printNat a ++ '-' :: printNat b) =
      if (a : Int) > (b : Int) ∨ (a : Int) ≥ total then none
      else some { start := (a : Int),
                  stop := if (b : Int) ≥ total then total - 1 else (b : Int) } := by
  unfold parseRangePart
  rw [trimSpace_no_ws _ (dash_body_not_ws a b)]
  have hcont : containsChar '-' (printNat a ++ '-' :: printNat b) = true :=
    containsChar_with_sep '-' (printNat a) (printNat b)
  simp only [hcont, if_true,
    splitFirst_no_sep '-' (printNat a) (printNat b) (mem_printNat_ne_dash a),
    List.getD, List.get?_cons_zero, List.get?_cons_succ,
    Option.getD_some]
  rw [if_neg (printNat_ne_nil a)]
  rw [goParseInt_printNat a ha]
  simp only [goParseInt_printNat b hb]
  simp [printNat_ne_nil b]
  exact if_congr (by omega) rfl rfl

/-- C3: a satisfiable single range `bytes=s-e` (0 ≤ s ≤ e < total) on a
cached file is answered with 206, `Content-Range: bytes s-e/total`,
`Content-Length = e-s+1`, and a body of exactly the bytes `file[s..e]` —
whose length is `e-s+1`, so `bytes=0-0` yields exactly one byte.  (The
bound on the file length mirrors the `int64` file size of `os.Stat`.) -/
theorem range_request_exact_bytes (file : List Nat) (s e : Nat)
    (hse : s ≤ e) (he : e < file.length)
    (hmax : (file.length : Int) ≤ 9223372036854775807) :
    serveVideoFile file .get
        (some ("bytes=".data ++ (printNat s ++ '-' :: printNat e))) =
      { status := 206, acceptRanges := true,
        contentRange := some ("bytes ".data ++ printNat s ++ '-' :: printNat e
          ++ '/' :: printNat file.length),
        contentLength := (e : Int) - (s : Int) + 1,
        body := (file.drop s).take (e - s + 1) } ∧
    ((file.drop s).take (e - s + 1)).length = e - s + 1 := by
  have hsa : (s : Int) ≤ 9223372036854775807 := by
    have : (s : Int) < (file.length : Int) := by exact_mod_cast lt_of_le_of_lt hse he
    omega
  have hea : (e : Int) ≤ 9223372036854775807 := by
    have : (e : Int) < (file.length : Int) := by exact_mod_cast he
    omega
  have hcond : ¬ ((s : Int) > (e : Int) ∨ (s : Int) ≥ (file.length : Int)) := by
    push_neg
    constructor
    · exact_mod_cast hse
    · exact_mod_cast lt_of_le_of_lt hse he
  have hclamp : ¬ ((e : Int) ≥ (file.length : Int)) := by
    have : (e : Int) < (file.length : Int) := by exact_mod_cast he
    omega
  set hdr : Str := "bytes=".data ++ (printNat s ++ '-' :: printNat e) with hhdr
  have hparse : parseRangeHeader hdr (file.length : Int)
      = some [{ start := (s : Int), stop := (e : Int) }] := by
    rw [hhdr, parse_header_single _ _ (dash_body_ne_comma s e),
      parsePart_digits s e (file.length : Int) hsa hea,
      if_neg hcond, if_neg hclamp]
    rfl
  have hlenInt : ((e : Int) - (s : Int) + 1).toNat = e - s + 1 := by
    omega
  constructor
  · simp [serveVideoFile, hparse, hlenInt, Int.toNat_natCast]
  · have hd : (file.drop s).length = file.length - s := List.length_drop s file
    rw [List.length_take, hd]
    omega

/-- Witness for C3 at the file `[10, 20, 30, 40]` with range `bytes=1-2`. -/
theorem range_request_exact_bytes_witness :
    serveVideoFile [10, 20, 30, 40] .get
        (some ("bytes=".data ++ (printNat 1 ++ '-' :: printNat 2))) =
      { status := 206, acceptRanges := true,
        contentRange := some ("bytes ".data ++ printNat 1 ++ '-' :: printNat 2
          ++ '/' :: printNat 4),
        contentLength := (2 : Int) - (1 : Int) + 1,
        body := ([10, 20, 30, 40].drop 1).take (2 - 1 + 1) } ∧
    (([10, 20, 30, 40].drop 1).take (2 - 1 + 1)).length = 2 - 1 + 1 := by
  have h := range_request_exact_bytes [10, 20, 30, 40] 1 2
    (by decide) (by decide) (by decide)
  simpa using h

theorem suffix_body_not_ws (n : Nat) :
    ∀ c ∈ '-' :: printNat n, isSpaceChar c = false := by
  intro c hc
  rcases List.mem_cons.mp hc with h | h
  · subst h; decide
  · exact mem_printNat_not_ws n c h

theorem suffix_body_ne_comma (n : Nat) : ∀ c ∈ '-' :: printNat n, ¬ c = ',' := by
  intro c hc
  rcases List.mem_cons.mp hc with h | h
  · subst h; decide
  · exact (isDigit_ne_chars (mem_printNat_isDigit n c h)).2.2.2.1

theorem parsePart_suffix_clamped (N : Nat) (total : Int)
    (hNb : (N : Int) ≤ 9223372036854775807)
    (hlt : total < (N : Int)) (hpos : 0 < total) :
    parseRangePart total ('-' :: printNat N) =
      some { start := 0, stop := total - 1 } := by
  unfold parseRangePart
  rw [trimSpace_no_ws _ (suffix_body_not_ws N)]
  have hcont : containsChar '-' ('-' :: printNat N) = true := by
    simp [containsChar]
  have hsplit : splitFirst '-' ('-' :: printNat N) = [[], printNat N] := by
    simp [splitFirst]
  simp only [hcont, if_true, hsplit, List.getD, List.get?_cons_zero,
    List.get?_cons_succ, Option.getD_some]
  simp only [goParseInt_printNat N hNb]
  have h1 : total - (N : Int) < 0 := by omega
  have h2 : ¬ ((0 : Int) < 0 ∨ total - 1 < 0 ∨ (0 : Int) > total - 1 ∨
      (0 : Int) ≥ total) := by
    push_neg
    omega
  have h3 : ¬ (total - 1 ≥ total) := by omega
  simp [printNat_ne_nil N, h1, h2, h3]
  omega

/-- C9: range normalisation at the streaming endpoint.  A suffix request
`bytes=-N` with N larger than the file is clamped to the whole file and
served with 206 (`Content-Range: bytes 0-(total-1)/total`, body = the whole
file); a request whose start equals the file size (`bytes=total-(total+10)`)
is rejected with 416 and `Content-Range: bytes */total`. -/
theorem range_edge_normalisation (file : List Nat) (N : Nat)
    (hpos : 0 < file.length) (hN : file.length < N)
    (hNb : (N : Int) ≤ 9223372036854775807)
    (hmax10 : ((file.length + 10 : Nat) : Int) ≤ 9223372036854775807) :
    serveVideoFile file .get (some ("bytes=".data ++ ('-' :: printNat N))) =
      { status := 206, acceptRanges := true,
        contentRange := some ("bytes ".data ++ printNat 0
          ++ '-' :: printNat (file.length - 1) ++ '/' :: printNat file.length),
        contentLength := (file.length : Int),
        body := file } ∧
    serveVideoFile file .get
        (some ("bytes=".data
          ++ (printNat file.length ++ '-' :: printNat (file.length + 10)))) =
      { status := 416, acceptRanges := true,
        contentRange := some ("bytes */".data ++ printNat file.length),
        contentLength := (file.length : Int),
        body := [] } := by
  constructor
  · set hdr1 : Str := "bytes=".data ++ ('-' :: printNat N) with hh1
    have hparse1 : parseRangeHeader hdr1 (file.length : Int)
        = some [{ start := 0, stop := (file.length : Int) - 1 }] := by
      rw [hh1, parse_header_single _ _ (suffix_body_ne_comma N),
        parsePart_suffix_clamped N _ hNb (by exact_mod_cast hN)
          (by exact_mod_cast hpos)]
      rfl
    have ht1 : ((file.length : Int) - 1).toNat = file.length - 1 := by omega
    have ht2 : ((file.length : Int) - 1 - 0 + 1) = (file.length : Int) := by omega
    have ht3 : ((file.length : Int) - 1 - 0 + 1).toNat = file.length := by omega
    simp [serveVideoFile, hparse1, ht1, ht2, ht3]
  · set hdr2 : Str := "bytes=".data
      ++ (printNat file.length ++ '-' :: printNat (file.length + 10)) with hh2
    have hlenb : (file.length : Int) ≤ 9223372036854775807 := by
      push_cast at hmax10
      omega
    have hparse2 : parseRangeHeader hdr2 (file.length : Int) = none := by
      rw [hh2, parse_header_single _ _
          (dash_body_ne_comma file.length (file.length + 10)),
        parsePart_digits file.length (file.length + 10) _ hlenb
          (by exact_mod_cast hmax10)]
      rw [if_pos (Or.inr (le_refl _))]
      rfl
    simp [serveVideoFile, hparse2]

/-- Witness for C9 at the file `[7, 8, 9]` with `bytes=-5` and
`bytes=3-13`. -/
theorem range_edge_normalisation_witness :
    serveVideoFile [7, 8, 9] .get (some ("bytes=".data ++ ('-' :: printNat 5))) =
      { status := 206, acceptRanges := true,
        contentRange := some ("bytes ".data ++ printNat 0
          ++ '-' :: printNat (3 - 1) ++ '/' :: printNat 3),
        contentLength := (3 : Int),
        body := [7, 8, 9] } ∧
    serveVideoFile [7, 8, 9] .get
        (some ("bytes=".data ++ (printNat 3 ++ '-' :: printNat (3 + 10)))) =
      { status := 416, acceptRanges := true,
        contentRange := some ("bytes */".data ++ printNat 3),
        contentLength := (3 : Int),
        body := [] } := by
  have h := range_edge_normalisation [7, 8, 9] 5
    (by decide) (by decide) (by decide) (by decide)
  simpa using h

end JfWatch
